import Mathlib

/-!
Verification of the command-event correlation and trace-logging subsystem of
the `go-mongo` repository, shallowly embedded in Lean 4.

The embedding follows the Go source:
* `src/internal/logger.go` — log levels, logger configuration, the
  `Trace` classifier, console formatting templates and `handleLog`
  (structured-record serialization and callback dispatch);
* `src/table.go` — the `New` constructor's `event.CommandMonitor`
  callbacks (start/success/failure correlation through a `sync.Map`);
* `src/unnamed/part_002` — the `WithTimerRange` filter helper.

Go `time.Duration` values are modelled as `Int` (nanoseconds), Go strings as
Lean `String`s, and the `sync.Map` keyed by request id as an association
list with store / load / delete operations.  Effects (console writes,
structured-callback invocations) are modelled as explicit lists of emitted
values.
-/

namespace GoMongo

/-- LogLevel 定义日志级别枚举 (`src/internal/logger.go`): `Silent`, `Error`,
`Warn`, `Info` with underlying Go integer values 1,2,3,4 (`iota + 1`). -/
inductive LogLevel where
  | Silent
  | Error
  | Warn
  | Info
deriving DecidableEq

/-- Underlying Go integer value of a `LogLevel` (`iota + 1`). -/
def LogLevel.num : LogLevel → Int
  | .Silent => 1
  | .Error => 2
  | .Warn => 3
  | .Info => 4

/-- Conf 为 logger 的配置 (`internal.Conf`).  `SlowThreshold` is a Go
`time.Duration`, i.e. a signed 64-bit nanosecond count, modelled as `Int`. -/
structure Conf where
  Console : Bool
  SlowThreshold : Int
  Colorful : Bool
  Database : String
  LogLevel : LogLevel

/-- A logger instance: its configuration together with whether a structured
log callback was supplied (`handle != nil` in `internal.logger`).  The three
console templates chosen by `NewLogger` are functions of `Conf.Colorful`
alone and are embedded as the formatting functions below. -/
structure Logger where
  conf : Conf
  hasHandle : Bool

/-- Which branch of the `switch` in `logger.Trace` fires (the severity
classification of a terminal event): suppressed (no case taken or the early
`Silent` return), the error branch, the slow-query warn branch, or the info
branch. -/
inductive Classification where
  | suppressed
  | errBranch
  | warnBranch
  | infoBranch
deriving DecidableEq

/-- Branch selection of `logger.Trace` (`src/internal/logger.go`): the early
return `l.LogLevel <= Silent`, then the `switch` with cases
`len(err) > 0 && l.LogLevel >= Error`,
`elapsed > l.SlowThreshold && l.SlowThreshold != 0 && l.LogLevel >= Warn`,
and `l.LogLevel >= Info`, in that order. -/
def classify (c : Conf) (elapsed : Int) (err : String) : Classification :=
  if c.LogLevel.num ≤ LogLevel.Silent.num then .suppressed
  else if 0 < err.length ∧ LogLevel.Error.num ≤ c.LogLevel.num then .errBranch
  else if elapsed > c.SlowThreshold ∧ c.SlowThreshold ≠ 0 ∧ LogLevel.Warn.num ≤ c.LogLevel.num then
    .warnBranch
  else if LogLevel.Info.num ≤ c.LogLevel.num then .infoBranch
  else .suppressed

/-! ### Go duration rendering

`logger.Trace` builds the slow-query auxiliary message with
`fmt.Sprintf("SLOW SQL >= %v", l.SlowThreshold)`; `%v` on a `time.Duration`
invokes `Duration.String` from the Go standard library.  The next three
definitions model that stdlib algorithm (fraction digits with trailing
zeros trimmed, units ns/µs/ms below one second, h/m/s above). -/

/-- Models Go `time.fmtFrac`: peel `prec` decimal digits off `v`, printing a
digit only once a nonzero digit has been seen (trailing zeros omitted), and
prepend a decimal point when anything was printed.  Returns the fraction
string and the remaining value. -/
def fmtFracGo : Nat → Nat → String → Bool → String × Nat
  | v, 0, acc, pr => (if pr then "." ++ acc else "", v)
  | v, p + 1, acc, pr =>
    let digit := v % 10
    let pr2 := pr || decide (digit ≠ 0)
    let acc2 := if pr2 then String.singleton (Char.ofNat (48 + digit)) ++ acc else acc
    fmtFracGo (v / 10) p acc2 pr2

/-- Models Go `time.Duration.String`: `"0s"` for zero; ns/µs/ms units with a
trimmed fraction below one second; otherwise seconds, minutes and hours. -/
def goDurationString (d : Int) : String :=
  let neg := d < 0
  let u := d.natAbs
  if u < 1000000000 then
    if u = 0 then "0s"
    else
      let unitPrec : String × Nat :=
        if u < 1000 then ("ns", 0)
        else if u < 1000000 then ("µs", 3)
        else ("ms", 6)
      let fv := fmtFracGo u unitPrec.2 "" false
      (if neg then "-" else "") ++ toString fv.2 ++ fv.1 ++ unitPrec.1
  else
    let fv := fmtFracGo u 9 "" false
    let secs := fv.2 % 60
    let v2 := fv.2 / 60
    let core :=
      if v2 > 0 then
        let mins := v2 % 60
        let v3 := v2 / 60
        (if v3 > 0 then toString v3 ++ "h" else "") ++ toString mins ++ "m"
          ++ toString secs ++ fv.1 ++ "s"
      else toString secs ++ fv.1 ++ "s"
    (if neg then "-" else "") ++ core

example : goDurationString 200000000 = "200ms" := by decide
example : goDurationString 0 = "0s" := by decide

/-! ### Console formatting

`NewLogger` selects three `fmt.Printf` templates at construction time,
plain or ANSI-colored depending on `Conf.Colorful`; `Trace` then applies
them with `fmt.Printf(template+"\n", date, label, database, id, durMs,
[aux,] smt)`.  The functions below produce exactly the string such a
`Printf` writes.  Note that in the plain (non-colorful) info case the
template `baseFormat` has seven verbs but `Trace` supplies only six
arguments, so Go prints a trailing `%!s(MISSING)`. -/

/-- ColorReset 重置 ANSI 颜色 (`"\033[0m"`). -/
def ColorReset : String := "\x1b[0m"

/-- ColorYellow 黄色 (`"\033[33m"`). -/
def ColorYellow : String := "\x1b[33m"

/-- ColorBlueBold 蓝色加粗 (`"\033[34;1m"`). -/
def ColorBlueBold : String := "\x1b[34;1m"

/-- ColorRedBold 红色加粗 (`"\033[31;1m"`). -/
def ColorRedBold : String := "\x1b[31;1m"

/-- Models `%.3f` applied to `float64(elapsed.Nanoseconds())/1e6`
(milliseconds with three decimal digits): fixed-point rendering of the
nanosecond count with round-half-to-even at microsecond precision, which
agrees with the float computation at the magnitudes the logger handles. -/
def fmtMs (ns : Int) : String :=
  let a := ns.natAbs
  let micro :=
    if 500 < a % 1000 ∨ (a % 1000 = 500 ∧ (a / 1000) % 2 = 1) then a / 1000 + 1 else a / 1000
  let whole := micro / 1000
  let frac := micro % 1000
  let fracStr :=
    (if frac < 100 then "0" else "") ++ (if frac < 10 then "0" else "") ++ toString frac
  (if ns < 0 then "-" else "") ++ toString whole ++ "." ++ fracStr

/-- Shared colored line head: `colorPre` in `NewLogger` with the date, the
level label, the database and the request id substituted
(`"[%s] [%s] " + ColorBlueBold + "[Database:%s] " + ColorBlueBold +
"[RequestId:%d] " + ColorYellow`). -/
def colorHead (date label db : String) (id : Int) : String :=
  "[" ++ date ++ "] [" ++ label ++ "] " ++ ColorBlueBold ++ "[Database:" ++ db ++ "] "
    ++ ColorBlueBold ++ "[RequestId:" ++ toString id ++ "] " ++ ColorYellow

/-- Shared plain line head: the part of `baseFormat` up to the duration
field, substituted. -/
def plainHead (date label db : String) (id : Int) : String :=
  "[" ++ date ++ "] [" ++ label ++ "] [Database:" ++ db ++ "] [RequestId:"
    ++ toString id ++ "] "

/-- Info-branch console output: `Printf(l.traceStr+"\n", date, "info",
db, id, durMs, smt)`.  Colored `traceStr` ends `... + "\n" + ColorReset +
"%s"`; plain `traceStr` is `baseFormat`, which has one more `%s` verb than
the info branch supplies, hence the `%!s(MISSING)` tail. -/
def consoleInfoLine (colorful : Bool) (date db : String) (id : Int) (elapsed : Int)
    (smt : String) : String :=
  if colorful then
    colorHead date "info" db id ++ "[Duration:" ++ fmtMs elapsed ++ "ms]\n"
      ++ ColorReset ++ smt ++ "\n"
  else
    plainHead date "info" db id ++ "[Duration:" ++ fmtMs elapsed ++ "ms]" ++ smt
      ++ "\n" ++ "%!s(MISSING)" ++ "\n"

/-- Warn-branch console output: `Printf(l.traceWarnStr+"\n", date, "warn",
db, id, durMs, slowLog, smt)`. -/
def consoleWarnLine (colorful : Bool) (date db : String) (id : Int) (elapsed : Int)
    (aux smt : String) : String :=
  if colorful then
    colorHead date "warn" db id ++ "[Duration:" ++ fmtMs elapsed ++ "ms] " ++ ColorYellow
      ++ aux ++ "\n" ++ ColorReset ++ smt ++ "\n"
  else
    plainHead date "warn" db id ++ "[Duration:" ++ fmtMs elapsed ++ "ms]" ++ aux
      ++ "\n" ++ smt ++ "\n"

/-- Error-branch console output: `Printf(l.traceErrStr+"\n", date, "error",
db, id, durMs, err, smt)`. -/
def consoleErrLine (colorful : Bool) (date db : String) (id : Int) (elapsed : Int)
    (errText smt : String) : String :=
  if colorful then
    colorHead date "error" db id ++ "[Duration:" ++ fmtMs elapsed ++ "ms] " ++ ColorRedBold
      ++ errText ++ "\n" ++ ColorReset ++ " " ++ smt ++ "\n"
  else
    plainHead date "error" db id ++ "[Duration:" ++ fmtMs elapsed ++ "ms] " ++ errText
      ++ "\n" ++ smt ++ "\n"

/-! ### Metadata, structured record and callback dispatch -/

/-- gRPC incoming metadata, as consumed through
`metadata.FromIncomingContext`: a map from keys to lists of string values,
modelled as an association list.  A context may carry no metadata at all,
hence uses of `Metadata` are wrapped in `Option` (`none` = no carrier). -/
abbrev Metadata := List (String × List String)

/-- TraceId 为从 metadata 读取 trace id 的 key (`HeaderPrefix + "trace-id"`,
where the shared header namespace `HeaderPrefix` is `"x-firefly-"`). -/
def TraceId : String := "x-firefly-trace-id"

/-- UserId 为从 metadata 读取 user id 的 key. -/
def UserId : String := "x-firefly-user-id"

/-- AppId 为从 metadata 读取 app id 的 key. -/
def AppId : String := "x-firefly-app-id"

/-- ResultSuccess 为成功执行的结果标记. -/
def ResultSuccess : String := "success"

/-- LogTypeMongo 为日志类型标识. -/
def LogTypeMongo : Int := 6

/-- Models `md.Get(key)` preceded by `md, _ := metadata.FromIncomingContext(ctx)`:
an absent carrier yields the nil `MD`, whose `Get` returns the empty list;
otherwise the value list stored under the key (empty when missing). -/
def mdGet (md : Option Metadata) (k : String) : List String :=
  match md with
  | none => []
  | some m =>
    match m.find? (fun p => p.fst == k) with
    | some p => p.snd
    | none => []

/-- A value stored in the `map[string]interface{}` handed to
`json.Marshal`.  The logger only ever stores strings and integers, but a Go
`interface{}` can also hold values `json.Marshal` rejects (channels,
functions); `chanV` stands for those, making serialization failure
expressible. -/
inductive FieldVal where
  | strV : String → FieldVal
  | intV : Int → FieldVal
  | chanV : FieldVal
deriving DecidableEq

/-- JSON encoding of a single field value; fails (`none`) exactly on
non-encodable values. -/
def encodeField : FieldVal → Option String
  | .strV s => some ("\"" ++ s ++ "\"")
  | .intV n => some (toString n)
  | .chanV => none

/-- Models `json.Marshal` on the logger's field map: a field-named
(self-describing) rendering `\x7b"key":value,...\x7d`; fails iff some field
value is non-encodable. -/
def jsonMarshal (m : List (String × FieldVal)) : Option String :=
  match m.mapM (fun p => (encodeField p.snd).map (fun v => "\"" ++ p.fst ++ "\":" ++ v)) with
  | some fields => some ("\x7b" ++ String.intercalate "," fields ++ "\x7d")
  | none => none

/-- The optional trace-enrichment fields of the record: for each of the
three fixed keys, if the metadata value list is nonempty its first value is
stored (`gd[0]`), otherwise the field is absent. -/
def traceFields (md : Option Metadata) : List (String × FieldVal) :=
  (match mdGet md TraceId with
   | v :: _ => [("trace_id", FieldVal.strV v)]
   | [] => [])
  ++ (match mdGet md UserId with
   | v :: _ => [("user_id", FieldVal.strV v)]
   | [] => [])
  ++ (match mdGet md AppId with
   | v :: _ => [("invoke_app_id", FieldVal.strV v)]
   | [] => [])

/-- The `logMap` built by `logger.handleLog`: the six unconditional fields
(`Duration` is `elapsed.Microseconds()`, i.e. truncated division by 1000;
`Level` is the Go integer value of the level) followed by the optional
trace-enrichment fields. -/
def logMap (l : Logger) (md : Option Metadata) (level : LogLevel) (smt result : String)
    (elapsed : Int) : List (String × FieldVal) :=
  [("Database", FieldVal.strV l.conf.Database),
   ("Statement", FieldVal.strV smt),
   ("Result", FieldVal.strV result),
   ("Duration", FieldVal.intV (Int.tdiv elapsed 1000)),
   ("Level", FieldVal.intV level.num),
   ("Type", FieldVal.intV LogTypeMongo)]
  ++ traceFields md

/-- The tail of `handleLog`: `if b, err := json.Marshal(logMap); err == nil
{ l.handle(b) }` — the list of payloads passed to the callback (empty on
serialization failure, a single payload otherwise). -/
def marshalAndEmit (m : List (String × FieldVal)) : List String :=
  match jsonMarshal m with
  | some b => [b]
  | none => []

/-- `logger.handleLog`: returns the list of byte payloads handed to the
structured callback — empty when no callback is configured
(`l.handle == nil`) or when serialization fails. -/
def handleLog (l : Logger) (md : Option Metadata) (level : LogLevel) (smt result : String)
    (elapsed : Int) : List String :=
  if l.hasHandle then marshalAndEmit (logMap l md level smt result elapsed) else []

/-- Observable effects of one `logger.Trace` call: the console lines
printed, the `(level, statement, result)` triple passed to `handleLog`
(`none` when the event is suppressed), and the payloads handed to the
structured callback. -/
structure TraceOut where
  console : List String
  record : Option (LogLevel × String × String)
  calls : List String
deriving DecidableEq

/-- `logger.Trace` (`src/internal/logger.go`): early return on `Silent`,
then the error / slow-query / info branches, each optionally printing one
console line and invoking `handleLog`.  `date` stands for the
`time.Now().Format(time.DateTime)` timestamp, supplied externally. -/
def Trace (l : Logger) (md : Option Metadata) (date : String) (id : Int) (elapsed : Int)
    (smt err : String) : TraceOut :=
  match classify l.conf elapsed err with
  | .suppressed => ⟨[], none, []⟩
  | .errBranch =>
    ⟨if l.conf.Console then
        [consoleErrLine l.conf.Colorful date l.conf.Database id elapsed err smt]
      else [],
     some (.Error, smt, err),
     handleLog l md .Error smt err elapsed⟩
  | .warnBranch =>
    let slowLog := "SLOW SQL >= " ++ goDurationString l.conf.SlowThreshold
    ⟨if l.conf.Console then
        [consoleWarnLine l.conf.Colorful date l.conf.Database id elapsed slowLog smt]
      else [],
     some (.Warn, smt, slowLog),
     handleLog l md .Warn smt slowLog elapsed⟩
  | .infoBranch =>
    ⟨if l.conf.Console then
        [consoleInfoLine l.conf.Colorful date l.conf.Database id elapsed smt]
      else [],
     some (.Info, smt, ResultSuccess),
     handleLog l md .Info smt ResultSuccess elapsed⟩

/-! ### The command-monitor event adapter (`src/table.go`, `New`)

The driver delivers three lifecycle callbacks; `New` wires them to a
`sync.Map` (`stmts`) keyed by `RequestID`.  The map is modelled as an
association list with the usual store / load / delete operations; processing
an event list yields the sequence of argument tuples passed to
`logger.Trace`. -/

/-- `sync.Map.Store`: insert the key/value pair, overwriting an existing
binding for the key. -/
def mapStore : List (Int × String) → Int → String → List (Int × String)
  | [], k, v => [(k, v)]
  | (k2, v2) :: rest, k, v =>
    if k2 = k then (k, v) :: rest else (k2, v2) :: mapStore rest k v

/-- `sync.Map.Load`: the value bound to the key, if any. -/
def mapLoad : List (Int × String) → Int → Option String
  | [], _ => none
  | (k2, v2) :: rest, k => if k2 = k then some v2 else mapLoad rest k

/-- `sync.Map.Delete`: remove any binding for the key. -/
def mapDelete : List (Int × String) → Int → List (Int × String)
  | [], _ => []
  | (k2, v2) :: rest, k =>
    if k2 = k then mapDelete rest k else (k2, v2) :: mapDelete rest k

/-- A driver lifecycle event: `Started` carries the request id and the
command text (`e.Command.String()`); `Succeeded` and `Failed` carry the
request id, the duration and — for `Failed` — the failure text. -/
inductive CommandEvent where
  | started (requestId : Int) (command : String)
  | succeeded (requestId : Int) (duration : Int)
  | failed (requestId : Int) (duration : Int) (failure : String)

/-- The argument tuple of one `logger.Trace` invocation made by a terminal
event callback. -/
structure TraceCall where
  requestId : Int
  duration : Int
  smt : String
  err : String
deriving DecidableEq

/-- State transition of the `stmts` map for one event: `Started` stores the
command text; a terminal event loads the entry and, when found, deletes it
(`stmts.Load` / `stmts.Delete` in the `Succeeded`/`Failed` callbacks). -/
def stepStmts (st : List (Int × String)) : CommandEvent → List (Int × String)
  | .started id cmd => mapStore st id cmd
  | .succeeded id _ =>
    match mapLoad st id with
    | some _ => mapDelete st id
    | none => st
  | .failed id _ _ =>
    match mapLoad st id with
    | some _ => mapDelete st id
    | none => st

/-- The `logger.Trace` calls triggered by one event in state `st`: none for
`Started`; exactly one for a terminal event, with the correlated command
text (or `""` on a correlation miss) and the failure text (`""` on
success). -/
def stepCalls (st : List (Int × String)) : CommandEvent → List TraceCall
  | .started _ _ => []
  | .succeeded id d => [⟨id, d, (mapLoad st id).getD "", ""⟩]
  | .failed id d f => [⟨id, d, (mapLoad st id).getD "", f⟩]

/-- Process an event sequence from a given map state, collecting every
`logger.Trace` invocation in order. -/
def monitorRun : List (Int × String) → List CommandEvent → List TraceCall
  | _, [] => []
  | st, e :: es => stepCalls st e ++ monitorRun (stepStmts st e) es

/-- Specification-side transition of the pending command text for one
identifier: a start event for that id installs its command text, a terminal
event for that id clears it, events for other ids leave it unchanged. -/
def pendStep (id : Int) (acc : Option String) : CommandEvent → Option String
  | .started i c => if i = id then some c else acc
  | .succeeded i _ => if i = id then none else acc
  | .failed i _ _ => if i = id then none else acc

/-- The command text of the matching start event for `id` after the events
`es`: the text of the most recent start event for `id` not yet consumed by
a terminal event (`none` when no such start event exists). -/
def specPending (es : List CommandEvent) (id : Int) : Option String :=
  es.foldl (pendStep id) none

/-- Specification-side transcript: for each terminal event, exactly one
`Trace` attempt whose command text is the pending text of the prefix of
events before it (empty on a correlation miss). -/
def specCalls (done : List CommandEvent) : List CommandEvent → List TraceCall
  | [] => []
  | e :: es =>
    (match e with
     | .started _ _ => []
     | .succeeded id d => [⟨id, d, (specPending done id).getD "", ""⟩]
     | .failed id d f => [⟨id, d, (specPending done id).getD "", f⟩])
    ++ specCalls (done ++ [e]) es

/-- Number of terminal (success or failure) events in a sequence. -/
def countTerminal (es : List CommandEvent) : Nat :=
  es.countP fun e =>
    match e with
    | .started _ _ => false
    | .succeeded _ _ => true
    | .failed _ _ _ => true

/-! ### `WithTimerRange` and Go slice-passing (`src/unnamed/part_002`)

`WithTimerRange(option bson.D, start, end string)` receives the caller's
slice header **by value** and executes `option = append(option, ...)`.  A
Go slice header is a view (pointer, length) into a backing array: `append`
either writes into spare backing capacity at index `len` (leaving shared
state mutated only past the caller's visible length) or reallocates.  The
model keeps, for each slice, the backing array from its offset onward and
its length; the caller-visible value is `view = backing.take len`. -/

/-- The minute-of-time value written into the range condition:
`time.Parse(time.DateTime, s)` result, reduced to its calendar fields. -/
structure GoTime where
  year : Nat
  month : Nat
  day : Nat
  hour : Nat
  minute : Nat
  second : Nat
deriving DecidableEq

/-- Numeric value of a decimal digit character. -/
def digitVal (c : Char) : Nat := c.toNat - 48

/-- Gregorian leap-year test, as in Go's `isLeap`. -/
def isLeap (y : Nat) : Bool := (y % 4 == 0 && y % 100 != 0) || y % 400 == 0

/-- Days in a month, as in Go's `daysIn`. -/
def daysIn (m y : Nat) : Nat :=
  if m = 2 then (if isLeap y then 29 else 28)
  else if m = 4 ∨ m = 6 ∨ m = 9 ∨ m = 11 then 30
  else 31

/-- Models `time.Parse(time.DateTime, s)` for the fixed layout
`"2006-01-02 15:04:05"`: nineteen characters, fixed-width decimal fields
with the layout's separators, and Go's range checks on month, day (per
month/year), hour, minute and second.  Returns `none` on any mismatch. -/
def parseDateTime (s : String) : Option GoTime :=
  match s.toList with
  | [y1, y2, y3, y4, c1, m1, m2, c2, d1, d2, c3, h1, h2, c4, n1, n2, c5, s1, s2] =>
    if y1.isDigit && y2.isDigit && y3.isDigit && y4.isDigit && c1 == '-'
        && m1.isDigit && m2.isDigit && c2 == '-' && d1.isDigit && d2.isDigit
        && c3 == ' ' && h1.isDigit && h2.isDigit && c4 == ':' && n1.isDigit
        && n2.isDigit && c5 == ':' && s1.isDigit && s2.isDigit then
      let y := ((digitVal y1 * 10 + digitVal y2) * 10 + digitVal y3) * 10 + digitVal y4
      let mo := digitVal m1 * 10 + digitVal m2
      let d := digitVal d1 * 10 + digitVal d2
      let h := digitVal h1 * 10 + digitVal h2
      let mi := digitVal n1 * 10 + digitVal n2
      let se := digitVal s1 * 10 + digitVal s2
      if 1 ≤ mo ∧ mo ≤ 12 ∧ 1 ≤ d ∧ d ≤ daysIn mo y ∧ h ≤ 23 ∧ mi ≤ 59 ∧ se ≤ 59 then
        some ⟨y, mo, d, h, mi, se⟩
      else none
    else none
  | _ => none

/-- A BSON value as far as `WithTimerRange` needs: a time value or a nested
document (`bson.D`). -/
inductive BsonValue where
  | timeV : GoTime → BsonValue
  | docV : List (String × BsonValue) → BsonValue

/-- One `bson.E` element: key and value. -/
abbrev BsonE := String × BsonValue

/-- The range condition `WithTimerRange` appends:
`bson.E\x7bKey: "created_at", Value: bson.D\x7b\x7b"$gte", start\x7d, \x7b"$lte", end\x7d\x7d\x7d`. -/
def timerRangeCond (startTime endTime : GoTime) : BsonE :=
  ("created_at", BsonValue.docV
    [("$gte", BsonValue.timeV startTime), ("$lte", BsonValue.timeV endTime)])

/-- A Go slice header over a backing array (the array from the slice's
offset onward) with its visible length; spare capacity is the part of
`backing` past `len`. -/
structure GoSlice (α : Type) where
  backing : List α
  len : Nat

/-- The caller-visible value of a slice: its first `len` backing elements. -/
def GoSlice.view {α : Type} (s : GoSlice α) : List α := s.backing.take s.len

/-- `append(s, x)` for a single element: write into spare capacity at index
`len` when available (mutating the shared backing array), otherwise copy
the visible elements into a fresh backing array and add `x`. -/
def goAppend {α : Type} (s : GoSlice α) (x : α) : GoSlice α :=
  if s.len < s.backing.length then ⟨s.backing.set s.len x, s.len + 1⟩
  else ⟨s.backing.take s.len ++ [x], s.len + 1⟩

/-- Value-level semantics of the `WithTimerRange` body: the final value of
the local variable `option`.  When both strings are nonempty and both parse
under `time.DateTime`, the `created_at` range condition is appended;
otherwise (empty input or parse error) the function returns early. -/
def withTimerRangeLocal (option : List BsonE) (start en : String) : List BsonE :=
  if 0 < start.length ∧ 0 < en.length then
    match parseDateTime start with
    | none => option
    | some startTime =>
      match parseDateTime en with
      | none => option
      | some endTime => option ++ [timerRangeCond startTime endTime]
  else option

/-- Execution of `WithTimerRange` against the slice model: the callee
receives a copy `s` of the caller's header and runs the body.  Returns the
callee's final local slice and the caller's backing array after the call —
mutated at index `s.len` when `append` reused spare capacity, untouched
when `append` reallocated or no append happened. -/
def withTimerRangeExec (s : GoSlice BsonE) (start en : String) :
    GoSlice BsonE × List BsonE :=
  if 0 < start.length ∧ 0 < en.length then
    match parseDateTime start with
    | none => (s, s.backing)
    | some startTime =>
      match parseDateTime en with
      | none => (s, s.backing)
      | some endTime =>
        let s2 := goAppend s (timerRangeCond startTime endTime)
        (s2, if s.len < s.backing.length then s2.backing else s.backing)
  else (s, s.backing)

/-- Association-list lookup on the structured record, used to state which
fields the record carries. -/
def lookupField (m : List (String × FieldVal)) (k : String) : Option FieldVal :=
  (m.find? (fun p => p.fst == k)).map Prod.snd

/-! ## Helper lemmas -/

theorem LogLevel.two_le_iff (L : LogLevel) : 2 ≤ L.num ↔ L ≠ .Silent := by
  cases L <;> decide

theorem LogLevel.three_le_iff (L : LogLevel) : 3 ≤ L.num ↔ (L = .Warn ∨ L = .Info) := by
  cases L <;> decide

theorem LogLevel.four_le_iff (L : LogLevel) : 4 ≤ L.num ↔ L = .Info := by
  cases L <;> decide

/-- The error branch of `Trace` fires iff the failure text is nonempty and
the level is above `Silent`. -/
theorem classify_err_iff (c : Conf) (elapsed : Int) (err : String) :
    classify c elapsed err = Classification.errBranch ↔
      0 < err.length ∧ c.LogLevel ≠ LogLevel.Silent := by
  obtain ⟨co, thr, col, db, lvl⟩ := c
  cases lvl <;> simp [classify, LogLevel.num] <;> (try split_ifs) <;> (try simp_all) <;> omega

/-- The slow-query branch of `Trace` fires iff the failure text is empty,
the elapsed time strictly exceeds a nonzero threshold and the level is
`Warn` or `Info`. -/
theorem classify_warn_iff (c : Conf) (elapsed : Int) (err : String) :
    classify c elapsed err = Classification.warnBranch ↔
      err.length = 0 ∧ c.SlowThreshold < elapsed ∧ c.SlowThreshold ≠ 0 ∧
        (c.LogLevel = LogLevel.Warn ∨ c.LogLevel = LogLevel.Info) := by
  obtain ⟨co, thr, col, db, lvl⟩ := c
  cases lvl <;> simp [classify, LogLevel.num] <;> (try split_ifs) <;> (try simp_all) <;> omega

/-- The info branch of `Trace` fires iff the level is `Info`, the failure
text is empty and the slow-query condition does not hold. -/
theorem classify_info_iff (c : Conf) (elapsed : Int) (err : String) :
    classify c elapsed err = Classification.infoBranch ↔
      c.LogLevel = LogLevel.Info ∧ err.length = 0 ∧
        ¬(c.SlowThreshold < elapsed ∧ c.SlowThreshold ≠ 0) := by
  obtain ⟨co, thr, col, db, lvl⟩ := c
  cases lvl <;> simp [classify, LogLevel.num] <;> (try split_ifs) <;> (try simp_all) <;> omega

/-! ## Claim theorems -/

/-- C2: a terminal event classifies as Error iff the failure indicator is
nonempty and the configured minimum level is `Error`, `Warn` or `Info`;
never Error at `Silent`; and a nonempty failure indicator excludes the
slow/Warn branch (the error branch takes precedence regardless of the
elapsed duration). -/
theorem trace_error_classification (c : Conf) (elapsed : Int) (err : String) :
    (classify c elapsed err = Classification.errBranch ↔
      0 < err.length ∧
        (c.LogLevel = LogLevel.Error ∨ c.LogLevel = LogLevel.Warn ∨
          c.LogLevel = LogLevel.Info))
    ∧ (c.LogLevel = LogLevel.Silent → classify c elapsed err ≠ Classification.errBranch)
    ∧ (0 < err.length → classify c elapsed err ≠ Classification.warnBranch) := by
  have hsil : c.LogLevel ≠ LogLevel.Silent ↔
      (c.LogLevel = LogLevel.Error ∨ c.LogLevel = LogLevel.Warn ∨
        c.LogLevel = LogLevel.Info) := by
    cases c.LogLevel <;> simp
  refine ⟨?_, ?_, ?_⟩
  · rw [classify_err_iff, hsil]
  · intro hS hcl
    exact ((classify_err_iff c elapsed err).mp hcl).2 hS
  · intro hlen hcl
    have := ((classify_warn_iff c elapsed err).mp hcl).1
    omega

/-- Witness for C2 at concrete inputs: with level `Warn` and failure text
`"dup"` the classifier yields Error (not Warn), and with level `Silent` it
does not yield Error. -/
theorem trace_error_classification_w :
    classify ⟨false, 200, false, "demo", .Warn⟩ 500 "dup" = Classification.errBranch
    ∧ classify ⟨false, 200, false, "demo", .Silent⟩ 500 "dup" ≠ Classification.errBranch
    ∧ classify ⟨false, 200, false, "demo", .Warn⟩ 500 "dup" ≠ Classification.warnBranch := by
  refine ⟨?_, ?_, ?_⟩
  · exact (trace_error_classification ⟨false, 200, false, "demo", .Warn⟩ 500 "dup").1.mpr
      ⟨by decide, Or.inr (Or.inl rfl)⟩
  · exact (trace_error_classification ⟨false, 200, false, "demo", .Silent⟩ 500 "dup").2.1 rfl
  · exact (trace_error_classification ⟨false, 200, false, "demo", .Warn⟩ 500 "dup").2.2
      (by decide)

/-- C3 (counterexample): the claim requires Warn only when the slow
threshold is strictly positive, but the code only tests `SlowThreshold != 0`;
with threshold `-1` ns, elapsed `0`, empty failure text and level `Warn`
the code classifies Warn although the threshold is not `> 0`. -/
theorem trace_warn_neg_threshold :
    classify ⟨false, -1, false, "demo", .Warn⟩ 0 "" = Classification.warnBranch
    ∧ ¬((0 : Int) < -1) := by
  exact ⟨by decide, by decide⟩

/-- C3 (amended): for a terminal event with empty failure indicator, the
classifier yields Warn iff the slow threshold is nonzero, the elapsed
duration strictly exceeds it, and the level is `Warn` or `Info`; in
particular with threshold `0` it never yields Warn. -/
theorem trace_warn_classification (c : Conf) (elapsed : Int) :
    (classify c elapsed "" = Classification.warnBranch ↔
      c.SlowThreshold ≠ 0 ∧ c.SlowThreshold < elapsed ∧
        (c.LogLevel = LogLevel.Warn ∨ c.LogLevel = LogLevel.Info))
    ∧ (c.SlowThreshold = 0 → classify c elapsed "" ≠ Classification.warnBranch) := by
  constructor
  · rw [classify_warn_iff]
    simp
    tauto
  · intro h0 hcl
    exact ((classify_warn_iff c elapsed "").mp hcl).2.2.1 h0

/-- Witness for the amended C3: threshold `200`, elapsed `500`, level
`Info` yields Warn; threshold `0` with the same elapsed does not. -/
theorem trace_warn_classification_w :
    classify ⟨false, 200, false, "demo", .Info⟩ 500 "" = Classification.warnBranch
    ∧ classify ⟨false, 0, false, "demo", .Info⟩ 500 "" ≠ Classification.warnBranch := by
  refine ⟨?_, ?_⟩
  · exact (trace_warn_classification ⟨false, 200, false, "demo", .Info⟩ 500).1.mpr
      ⟨by decide, by decide, Or.inr rfl⟩
  · exact (trace_warn_classification ⟨false, 0, false, "demo", .Info⟩ 500).2 rfl

/-- C4: with minimum level `Silent`, `Trace` produces no console output and
never invokes the structured callback, for every duration, command text and
failure indicator (and every metadata context). -/
theorem trace_silent_no_output (l : Logger) (md : Option Metadata) (date : String)
    (id elapsed : Int) (smt err : String) (h : l.conf.LogLevel = LogLevel.Silent) :
    Trace l md date id elapsed smt err = ⟨[], none, []⟩ := by
  have hc : classify l.conf elapsed err = Classification.suppressed := by
    unfold classify
    rw [h]
    simp [LogLevel.num]
  unfold Trace
  rw [hc]

/-- Witness for C4: a `Silent` logger with console and callback enabled
emits nothing on a failing slow command. -/
theorem trace_silent_no_output_w :
    Trace ⟨⟨true, 200, true, "demo", .Silent⟩, true⟩ none "d" 1 999 "find" "boom"
      = ⟨[], none, []⟩ :=
  trace_silent_no_output ⟨⟨true, 200, true, "demo", .Silent⟩, true⟩ none "d" 1 999
    "find" "boom" rfl

/-- C5: severity filtering is monotone in the configured minimum level
under `Silent < Error < Warn < Info`: if the classifier emits an output
category (Error, Warn or Info) at level `c.LogLevel`, it emits the same
category at every level `L2` with `c.LogLevel.num ≤ L2.num`. -/
theorem severity_monotone (c : Conf) (elapsed : Int) (err : String) (L2 : LogLevel)
    (hle : c.LogLevel.num ≤ L2.num)
    (hns : classify c elapsed err ≠ Classification.suppressed) :
    classify { c with LogLevel := L2 } elapsed err = classify c elapsed err := by
  rcases hk : classify c elapsed err with _ | _ | _ | _
  · exact absurd hk hns
  · obtain ⟨hlen, hS⟩ := (classify_err_iff c elapsed err).mp hk
    refine (classify_err_iff _ elapsed err).mpr ⟨hlen, ?_⟩
    have h2 : 2 ≤ c.LogLevel.num := (LogLevel.two_le_iff c.LogLevel).mpr hS
    exact (LogLevel.two_le_iff L2).mp (le_trans h2 hle)
  · obtain ⟨hlen, hsl, hnz, hWI⟩ := (classify_warn_iff c elapsed err).mp hk
    refine (classify_warn_iff _ elapsed err).mpr ⟨hlen, hsl, hnz, ?_⟩
    have h3 : 3 ≤ c.LogLevel.num := (LogLevel.three_le_iff c.LogLevel).mpr hWI
    exact (LogLevel.three_le_iff L2).mp (le_trans h3 hle)
  · obtain ⟨hI, hlen, hnsl⟩ := (classify_info_iff c elapsed err).mp hk
    refine (classify_info_iff _ elapsed err).mpr ⟨?_, hlen, hnsl⟩
    have h4 : 4 ≤ c.LogLevel.num := by rw [hI]; decide
    exact (LogLevel.four_le_iff L2).mp (le_trans h4 hle)

/-- Witness for C5: an error that is emitted at level `Error` is emitted
identically at the higher-verbosity level `Info`. -/
theorem severity_monotone_w :
    classify ⟨false, 200, false, "demo", .Info⟩ 500 "dup"
      = classify ⟨false, 200, false, "demo", .Error⟩ 500 "dup" :=
  severity_monotone ⟨false, 200, false, "demo", .Error⟩ 500 "dup" LogLevel.Info
    (by decide) (by decide)

/-- The callback-payload list of `handleLog` never has more than one
element. -/
theorem handleLog_len_le_one (l : Logger) (md : Option Metadata) (level : LogLevel)
    (smt result : String) (elapsed : Int) :
    (handleLog l md level smt result elapsed).length ≤ 1 := by
  unfold handleLog marshalAndEmit
  cases l.hasHandle <;> simp
  cases jsonMarshal (logMap l md level smt result elapsed) <;> simp

/-- C6: for every terminal event the structured callback is invoked at most
once; it is not invoked when no callback is configured; every payload it
does receive is the field-named JSON serialization of the record; a record
whose serialization fails is silently discarded (no payload is emitted and
the dispatcher still returns); and a full `Trace` call makes at most one
callback invocation. -/
theorem sink_dispatch_once (l : Logger) (md : Option Metadata) (level : LogLevel)
    (smt result : String) (elapsed : Int) :
    (handleLog l md level smt result elapsed).length ≤ 1
    ∧ (l.hasHandle = false → handleLog l md level smt result elapsed = [])
    ∧ (∀ b ∈ handleLog l md level smt result elapsed,
        jsonMarshal (logMap l md level smt result elapsed) = some b)
    ∧ (∀ m, jsonMarshal m = none → marshalAndEmit m = [])
    ∧ (∀ date id smt2 err2, (Trace l md date id elapsed smt2 err2).calls.length ≤ 1) := by
  refine ⟨handleLog_len_le_one l md level smt result elapsed, ?_, ?_, ?_, ?_⟩
  · intro h
    unfold handleLog
    rw [h]
    rfl
  · intro b hb
    unfold handleLog marshalAndEmit at hb
    rcases hH : l.hasHandle with _ | _ <;> rw [hH] at hb <;> simp at hb
    rcases hm : jsonMarshal (logMap l md level smt result elapsed) with _ | b2 <;>
      rw [hm] at hb <;> simp_all
  · intro m hm
    unfold marshalAndEmit
    rw [hm]
  · intro date id smt2 err2
    unfold Trace
    rcases classify l.conf elapsed err2 with _ | _ | _ | _ <;>
      simp <;> exact handleLog_len_le_one l md _ _ _ elapsed

/-- Witness for C6: a logger without callback emits nothing, and a record
containing a non-encodable field is silently discarded by the dispatcher. -/
theorem sink_dispatch_once_w :
    handleLog ⟨⟨false, 200, false, "demo", .Info⟩, false⟩ none .Info "find" "success" 5 = []
    ∧ marshalAndEmit [("bad", FieldVal.chanV)] = [] := by
  have h := sink_dispatch_once ⟨⟨false, 200, false, "demo", .Info⟩, false⟩ none .Info
    "find" "success" 5
  exact ⟨h.2.1 rfl, h.2.2.2.1 [("bad", FieldVal.chanV)] rfl⟩

/-- C9: trace enrichment is total and tolerant: for every context (any
optional metadata carrier) each of the three record fields equals the first
value stored under its fixed namespaced key (absent exactly when the key
has no values), and an absent carrier yields no values for any key, hence
all-empty enrichment. -/
theorem trace_enrichment_total (l : Logger) (md : Option Metadata) (level : LogLevel)
    (smt result : String) (elapsed : Int) :
    lookupField (logMap l md level smt result elapsed) "trace_id"
      = (mdGet md TraceId).head?.map FieldVal.strV
    ∧ lookupField (logMap l md level smt result elapsed) "user_id"
      = (mdGet md UserId).head?.map FieldVal.strV
    ∧ lookupField (logMap l md level smt result elapsed) "invoke_app_id"
      = (mdGet md AppId).head?.map FieldVal.strV
    ∧ (∀ k, mdGet none k = []) := by
  refine ⟨?_, ?_, ?_, fun k => rfl⟩ <;>
    (rcases hT : mdGet md TraceId with _ | ⟨vT, rT⟩ <;>
     rcases hU : mdGet md UserId with _ | ⟨vU, rU⟩ <;>
     rcases hA : mdGet md AppId with _ | ⟨vA, rA⟩ <;>
     simp [logMap, traceFields, lookupField, hT, hU, hA, List.find?])

/-- C7 (counterexample): the Warn auxiliary message produced by the code is
`"SLOW SQL >= 200ms"` for a 200 ms threshold, not a string of the form
`"SLOW OPERATION >= <threshold>"` as the claim states. -/
theorem slow_message_not_operation :
    (Trace ⟨⟨false, 200000000, false, "demo", .Warn⟩, true⟩ none "d" 1 300000000
        "find" "").record
      = some (.Warn, "find", "SLOW SQL >= 200ms")
    ∧ "SLOW SQL >= 200ms".toList.take 14 ≠ "SLOW OPERATION".toList := by
  exact ⟨by decide, by decide⟩

/-- C7 (amended): whenever a terminal event with no failure indicator is
classified Warn, the auxiliary message attached to the record — and
substituted into any console line — is the string
`"SLOW SQL >= <threshold>"`, where `<threshold>` is the configured slow
threshold rendered by Go's duration formatting. -/
theorem slow_message_content (l : Logger) (md : Option Metadata) (date : String)
    (id elapsed : Int) (smt : String)
    (h : classify l.conf elapsed "" = Classification.warnBranch) :
    (Trace l md date id elapsed smt "").record
      = some (.Warn, smt, "SLOW SQL >= " ++ goDurationString l.conf.SlowThreshold)
    ∧ ∀ line ∈ (Trace l md date id elapsed smt "").console,
        ∃ A B, line = A ++ ("SLOW SQL >= " ++ goDurationString l.conf.SlowThreshold) ++ B := by
  unfold Trace
  rw [h]
  refine ⟨rfl, ?_⟩
  intro line hline
  rcases hco : l.conf.Console with _ | _ <;> rw [hco] at hline <;> simp at hline
  subst hline
  rcases hcol : l.conf.Colorful with _ | _
  · exact ⟨plainHead date "warn" l.conf.Database id ++ "[Duration:" ++ fmtMs elapsed
        ++ "ms]",
      "\n" ++ smt ++ "\n",
      by simp [consoleWarnLine, hcol, String.append_assoc]⟩
  · exact ⟨colorHead date "warn" l.conf.Database id ++ "[Duration:" ++ fmtMs elapsed
        ++ "ms] " ++ ColorYellow,
      "\n" ++ ColorReset ++ smt ++ "\n",
      by simp [consoleWarnLine, hcol, String.append_assoc]⟩

/-- Witness for the amended C7: a 200 ms threshold logger, elapsed 300 ms,
no failure text: the record's result field is the slow message built from
the threshold. -/
theorem slow_message_content_w :
    (Trace ⟨⟨false, 200000000, false, "demo", .Warn⟩, true⟩ none "d" 1 300000000
        "find" "").record
      = some (.Warn, "find", "SLOW SQL >= " ++ goDurationString 200000000) :=
  (slow_message_content ⟨⟨false, 200000000, false, "demo", .Warn⟩, true⟩ none "d" 1
    300000000 "find" (by decide)).1

/-- C8 (counterexample): with color enabled, the formatted info-template
console line at a concrete input does not terminate with the ANSI reset
sequence — the template places the reset before the trailing command text
and a newline ends the line. -/
theorem colored_line_not_end_reset :
    ColorReset.toList.isSuffixOf
      (consoleInfoLine true "2026-01-01 00:00:00" "demo" 1 50000000 "find").toList
      = false := by
  decide

/-- C8 (amended): with color enabled, every console line from the Info,
Warn and Error templates contains the ANSI reset sequence after all
template-introduced color sequences; only the plain message tail (the
command text and the final newline, plus a space for the error template)
follows the reset, so the templates leak no color state past the line. -/
theorem colored_reset_before_tail (date db : String) (id elapsed : Int)
    (aux errText smt : String) :
    (∃ A, consoleInfoLine true date db id elapsed smt
        = A ++ (ColorReset ++ (smt ++ "\n")))
    ∧ (∃ A, consoleWarnLine true date db id elapsed aux smt
        = A ++ (ColorReset ++ (smt ++ "\n")))
    ∧ (∃ A, consoleErrLine true date db id elapsed errText smt
        = A ++ (ColorReset ++ (" " ++ (smt ++ "\n")))) := by
  refine ⟨⟨colorHead date "info" db id ++ "[Duration:" ++ fmtMs elapsed ++ "ms]\n", ?_⟩,
    ⟨colorHead date "warn" db id ++ "[Duration:" ++ fmtMs elapsed ++ "ms] "
      ++ ColorYellow ++ aux ++ "\n", ?_⟩,
    ⟨colorHead date "error" db id ++ "[Duration:" ++ fmtMs elapsed ++ "ms] "
      ++ ColorRedBold ++ errText ++ "\n", ?_⟩⟩ <;>
  simp [consoleInfoLine, consoleWarnLine, consoleErrLine, String.append_assoc]

theorem mapLoad_mapStore (m : List (Int × String)) (k j : Int) (v : String) :
    mapLoad (mapStore m k v) j = if j = k then some v else mapLoad m j := by
  induction m with
  | nil =>
    by_cases h : j = k
    · subst h; simp [mapStore, mapLoad]
    · simp [mapStore, mapLoad, h, Ne.symm h]
  | cons p rest ih =>
    obtain ⟨k2, v2⟩ := p
    by_cases h2 : k2 = k
    · subst h2
      by_cases h : j = k2
      · subst h; simp [mapStore, mapLoad]
      · simp [mapStore, mapLoad, h, Ne.symm h]
    · by_cases hj : k2 = j
      · subst hj
        simp [mapStore, mapLoad, h2]
      · simp [mapStore, mapLoad, h2, hj, ih]

theorem mapLoad_mapDelete (m : List (Int × String)) (k j : Int) :
    mapLoad (mapDelete m k) j = if j = k then none else mapLoad m j := by
  induction m with
  | nil => simp [mapDelete, mapLoad]
  | cons p rest ih =>
    obtain ⟨k2, v2⟩ := p
    by_cases h2 : k2 = k
    · subst h2
      by_cases h : j = k2
      · subst h; simp [mapDelete, mapLoad, ih]
      · simp [mapDelete, mapLoad, h, Ne.symm h, ih]
    · by_cases hj : k2 = j
      · subst hj
        simp [mapDelete, mapLoad, h2, ih]
      · simp [mapDelete, mapLoad, h2, hj, ih]

/-- The correlation map after a sequence of events agrees, key by key, with
the specification-side pending command text. -/
theorem mapLoad_foldl (es : List CommandEvent) :
    ∀ (st : List (Int × String)) (id : Int),
      mapLoad (es.foldl stepStmts st) id = es.foldl (pendStep id) (mapLoad st id) := by
  induction es with
  | nil => intro st id; rfl
  | cons e es ih =>
    intro st id
    rw [List.foldl_cons, List.foldl_cons, ih]
    have hstep : mapLoad (stepStmts st e) id = pendStep id (mapLoad st id) e := by
      cases e with
      | started i c =>
        by_cases h : i = id
        · subst h; simp [stepStmts, pendStep, mapLoad_mapStore]
        · simp [stepStmts, pendStep, mapLoad_mapStore, h, Ne.symm h]
      | succeeded i d =>
        rcases hl : mapLoad st i with _ | v
        · by_cases h : i = id
          · subst h; simp [stepStmts, pendStep, hl]
          · simp [stepStmts, pendStep, hl, h]
        · by_cases h : i = id
          · subst h; simp [stepStmts, pendStep, hl, mapLoad_mapDelete]
          · simp [stepStmts, pendStep, hl, mapLoad_mapDelete, h, Ne.symm h]
      | failed i d f =>
        rcases hl : mapLoad st i with _ | v
        · by_cases h : i = id
          · subst h; simp [stepStmts, pendStep, hl]
          · simp [stepStmts, pendStep, hl, h]
        · by_cases h : i = id
          · subst h; simp [stepStmts, pendStep, hl, mapLoad_mapDelete]
          · simp [stepStmts, pendStep, hl, mapLoad_mapDelete, h, Ne.symm h]
    rw [hstep]

/-- Processing events from the state reached after `done` produces exactly
the specification-side transcript. -/
theorem monitorRun_spec (es : List CommandEvent) :
    ∀ done : List CommandEvent,
      monitorRun (done.foldl stepStmts []) es = specCalls done es := by
  induction es with
  | nil => intro done; rfl
  | cons e es ih =>
    intro done
    have hstep : stepStmts (done.foldl stepStmts []) e = (done ++ [e]).foldl stepStmts [] := by
      rw [List.foldl_append]
      rfl
    show stepCalls (done.foldl stepStmts []) e
        ++ monitorRun (stepStmts (done.foldl stepStmts []) e) es = _
    rw [hstep, ih (done ++ [e])]
    have hload : ∀ i, mapLoad (done.foldl stepStmts []) i = specPending done i := by
      intro i
      exact mapLoad_foldl done [] i
    cases e with
    | started i c => rfl
    | succeeded i d => simp [stepCalls, specCalls, hload i]
    | failed i d f => simp [stepCalls, specCalls, hload i]

theorem specCalls_length (es : List CommandEvent) :
    ∀ done, (specCalls done es).length = countTerminal es := by
  induction es with
  | nil => intro done; rfl
  | cons e es ih =>
    intro done
    cases e <;> simp [specCalls, countTerminal, List.countP_cons, ih done] <;>
      simp [countTerminal] at ih ⊢ <;> exact ih (done ++ [_])

/-- C1: for every sequence of interleaved start/success/failure events, the
command-monitor callbacks make exactly one `logger.Trace` attempt per
terminal event, and the command text passed to that attempt is the command
text supplied by the matching (most recent still-pending) start event for
the same identifier — which, when identifiers are unique among in-flight
operations, is the unique start event for that identifier — or the empty
string if no such start event preceded it. -/
theorem monitor_correlation (es : List CommandEvent) :
    monitorRun [] es = specCalls [] es
    ∧ (monitorRun [] es).length = countTerminal es := by
  have h : monitorRun [] es = specCalls [] es := monitorRun_spec es []
  exact ⟨h, by rw [h]; exact specCalls_length es []⟩

theorem take_set_self {α : Type} : ∀ (b : List α) (n : Nat) (x : α),
    (b.set n x).take n = b.take n := by
  intro b
  induction b with
  | nil => intro n x; simp
  | cons a bs ih =>
    intro n x
    cases n with
    | zero => simp
    | succ n =>
      simp only [List.set, List.take]
      rw [ih n x]

theorem take_succ_set {α : Type} : ∀ (b : List α) (n : Nat) (x : α), n < b.length →
    (b.set n x).take (n + 1) = b.take n ++ [x] := by
  intro b
  induction b with
  | nil => intro n x h; simp at h
  | cons a bs ih =>
    intro n x h
    cases n with
    | zero => simp
    | succ n =>
      simp only [List.set, List.take, List.cons_append]
      rw [ih n x (by simp at h; omega)]

/-- The view of a Go slice after `append`: the old view with the new
element at the end, whether the append wrote into spare capacity or
reallocated. -/
theorem goAppend_view {α : Type} (s : GoSlice α) (x : α) :
    (goAppend s x).view = s.view ++ [x] := by
  unfold goAppend GoSlice.view
  split
  case isTrue h => simpa using take_succ_set s.backing s.len x h
  case isFalse h =>
    have hlen : s.backing.length ≤ s.len := Nat.le_of_not_lt h
    rw [List.take_of_length_le hlen]
    rw [List.take_of_length_le (by simpa using Nat.succ_le_succ hlen)]

/-- C10: `WithTimerRange` receives the filter slice header by value; after
the call the caller's header still shows exactly the original filter (the
appended `created_at` range condition lives only past the caller's visible
length, or in a fresh backing array), while the function's local slice
follows the value-level semantics — the original filter with the range
condition appended whenever both bounds are nonempty and parse. -/
theorem with_timer_range_frame (s : GoSlice BsonE) (start en : String) :
    GoSlice.view ⟨(withTimerRangeExec s start en).2, s.len⟩ = s.view
    ∧ ((withTimerRangeExec s start en).1).view = withTimerRangeLocal s.view start en := by
  unfold withTimerRangeExec withTimerRangeLocal
  split
  case isTrue hne =>
    rcases hp : parseDateTime start with _ | t1
    · exact ⟨rfl, rfl⟩
    · rcases hq : parseDateTime en with _ | t2
      · exact ⟨rfl, rfl⟩
      · constructor
        · simp only []
          split
          case isTrue hcap =>
            show GoSlice.view ⟨(goAppend s (timerRangeCond t1 t2)).backing, s.len⟩ = s.view
            unfold goAppend
            rw [if_pos hcap]
            exact take_set_self s.backing s.len (timerRangeCond t1 t2)
          case isFalse hcap => rfl
        · exact goAppend_view s (timerRangeCond t1 t2)
  case isFalse hne => exact ⟨rfl, rfl⟩

end GoMongo
